import Mathlib

/-!
Verification development for the pyneatR batch formatting engine
(`src/pyneatR/numbers.py`, `src/pyneatR/dates.py`).

The Python code operates on numpy arrays of IEEE doubles and datetime64
values.  The model below embeds the mathematical content exactly:

* an array cell is an `RVal` — a finite rational, `nan`, `inf` or `-inf`
  (the binary float value is modelled as the exact rational it denotes;
  `np.log10`-based magnitude bucketing is modelled by the exact integer
  base-10 logarithm `Int.log`, and Python `format` rounding by exact
  round-half-even on rationals);
* `np.unique(x, return_inverse=True)` is modelled by a duplicate-free list
  of the distinct values plus the index map `List.indexOf`; the gathered
  output provably does not depend on the order of the distinct values, so
  the model uses `List.dedup` for the distinct list;
* dates / timestamps are modelled at the precision the code observes them
  (day resp. second), as civil components plus the epoch-day count given by
  the standard civil-from-days correspondence used by datetime64.

The helper module `utils.py` (`_unique_optimization`, `_sandwich`,
`_check_singleton`) is not present in the sources; those three helpers are
modelled from the spec where marked below.  Everything else is translated
from `numbers.py` and `dates.py`.
-/

namespace PyNeatR

/-! ## Cell values: IEEE doubles as exact rationals plus non-finite tokens -/

/-- A numpy float cell: a finite value (as the exact rational the double
denotes), or one of the non-finite values `nan`, `inf`, `-inf`. -/
inductive RVal where
  | nan : RVal
  | inf : RVal
  | ninf : RVal
  | fin (q : ℚ) : RVal
deriving DecidableEq, Repr

/-- Multiplication of a cell by an exact rational constant (the unit factors
`1, 1e-3, ..., 1e-12` and the percent scalings `100`, `1/100`), with IEEE
semantics on the non-finite values. -/
def RVal.mulQ : RVal → ℚ → RVal
  | .nan, _ => .nan
  | .inf, c => if 0 < c then .inf else if c < 0 then .ninf else .nan
  | .ninf, c => if 0 < c then .ninf else if c < 0 then .inf else .nan
  | .fin q, c => .fin (q * c)

/-- IEEE comparison `x > 0` (false on `nan`). -/
def RVal.gtZero : RVal → Bool
  | .nan => false
  | .inf => true
  | .ninf => false
  | .fin q => 0 < q

/-- IEEE comparison `x == 0` (false on `nan`). -/
def RVal.eqZero : RVal → Bool
  | .fin q => q = 0
  | _ => false

/-- IEEE comparison `x ≥ c` for a rational constant `c` (false on `nan`). -/
def RVal.geQ : RVal → ℚ → Bool
  | .nan, _ => false
  | .inf, _ => true
  | .ninf, _ => false
  | .fin q, c => c ≤ q

/-- IEEE comparison `x ≤ c` for a rational constant `c` (false on `nan`). -/
def RVal.leQ : RVal → ℚ → Bool
  | .nan, _ => false
  | .inf, _ => false
  | .ninf, _ => true
  | .fin q, c => q ≤ c

/-- `np.abs`. -/
def RVal.absV : RVal → RVal
  | .nan => .nan
  | .inf => .inf
  | .ninf => .inf
  | .fin q => .fin |q|

/-- `np.isfinite`. -/
def RVal.isFinite : RVal → Bool
  | .fin _ => true
  | _ => false

/-- The mask `(x != 0) & np.isfinite(x)` used by the unit-bucket logic. -/
def isNzFinite : RVal → Bool
  | .fin q => q ≠ 0
  | _ => false

/-- The rational carried by a finite cell (junk value `0` otherwise; only
ever applied under an `isNzFinite` guard). -/
def finPart : RVal → ℚ
  | .fin q => q
  | _ => 0

/-! ## Python fixed-point rendering (`format(v, ",.Nf")` / `format(v, ".Nf")`) -/

/-- Round half to even, the rounding used by Python `format` on the exact
value of the argument. -/
def rhe (x : ℚ) : ℤ :=
  let f := x.floor
  let r := x - (f : ℚ)
  if r < 1 / 2 then f
  else if 1 / 2 < r then f + 1
  else if f % 2 = 0 then f else f + 1

/-- Regroup a digit string (least significant first) into blocks of three,
the helper behind `,`-grouping. -/
def revChunk3 : List Char → List (List Char)
  | [] => []
  | a :: b :: c :: rest => [a, b, c] :: revChunk3 rest
  | l => [l]

/-- Insert `,` between thousands groups of a decimal digit string. -/
def group3 (l : List Char) : List Char :=
  List.intercalate [','] (((revChunk3 l.reverse).map List.reverse).reverse)

/-- Left-pad a digit string with zeros to width `w`. -/
def padZeros (w : ℕ) (l : List Char) : List Char :=
  List.replicate (w - l.length) '0' ++ l

/-- Python `format(v, ",.df")` (when `comma = true`) resp. `format(v, ".df")`
(when `comma = false`): fixed `d` decimals, round half even, optional
thousands grouping, and the bare tokens `"nan"` / `"inf"` / `"-inf"` on
non-finite input. -/
def pyFormatFloat (comma : Bool) (d : ℕ) : RVal → String
  | .nan => "nan"
  | .inf => "inf"
  | .ninf => "-inf"
  | .fin q =>
    let n : ℕ := (rhe (|q| * (10 : ℚ) ^ d)).toNat
    let ip := n / 10 ^ d
    let fp := n % 10 ^ d
    let ipChars := if comma then group3 (Nat.toDigits 10 ip) else Nat.toDigits 10 ip
    let signStr := if q < 0 then "-" else ""
    let fracStr := if d = 0 then "" else "." ++ (padZeros d (Nat.toDigits 10 fp)).asString
    signStr ++ ipChars.asString ++ fracStr

/-- `np.char.replace` with a single-character needle (the only way the code
uses it: needles `,`, `.`, `X`). -/
def charReplace (c : Char) (rep : List Char) : List Char → List Char
  | [] => []
  | ch :: rest => (if ch = c then rep else [ch]) ++ charReplace c rep rest

/-- The separator post-processing of `nnumber` (lines 118-124): values are
formatted with `,` grouping; a requested `.` separator is installed by the
three-step swap protecting the decimal point, any other separator by a plain
replacement of `,`. -/
def applySep (sep : String) (s : String) : String :=
  if sep = "," then s
  else if sep = "." then
    (charReplace 'X' ['.'] (charReplace '.' [','] (charReplace ',' ['X'] s.data))).asString
  else (charReplace ',' sep.data s.data).asString

/-! ## Unit buckets and the `auto` vote (`nnumber`, lines 51-110) -/

/-- The `unit_labels` dictionary of `nnumber` with its documented defaults. -/
structure UnitLabels where
  thousand : String := "K"
  million : String := "Mn"
  billion : String := "Bn"
  trillion : String := "Tn"
deriving DecidableEq, Repr

/-- `labels = ['', K, Mn, Bn, Tn]` (line 51). -/
def labelsList (u : UnitLabels) : List String :=
  ["", u.thousand, u.million, u.billion, u.trillion]

/-- `factors = [1, 1e-3, 1e-6, 1e-9, 1e-12]` (line 56), as exact rationals. -/
def factorsList : List ℚ :=
  [1, 1 / 1000, 1 / 1000000, 1 / 1000000000, 1 / 1000000000000]

/-- `factors_arr[i]`. -/
def factorAt (i : ℕ) : ℚ := factorsList.getD i 1

/-- `labels_arr[i]`. -/
def labelAt (u : UnitLabels) (i : ℕ) : String := (labelsList u).getD i ""

/-- `clip(floor(log10(|v|) / 3), 0, 4)` for a non-zero finite value `v`:
`Int.log 10 |q|` is the exact value of `floor(log10(|v|))` and flooring the
real division by `3` equals integer floor-division of that integer by `3`. -/
def bucketOf (q : ℚ) : ℕ := (min 4 (max 0 (Int.fdiv (Int.log 10 |q|) 3))).toNat

/-- The per-distinct-value bucket of `custom` mode (lines 96-104): non-zero
finite values get their magnitude bucket, zero and non-finite values keep
bucket `0`. -/
def bucketR : RVal → ℕ
  | .fin q => if q ≠ 0 then bucketOf q else 0
  | _ => 0

/-- `l.foldr max 0`, the maximum of a list of naturals. -/
def listMaxN (l : List ℕ) : ℕ := l.foldr max 0

/-- `np.argmax`: index of the first occurrence of the maximum. -/
def firstArgmax (l : List ℕ) : ℕ := l.indexOf (listMaxN l)

/-- `np.argmax(np.bincount(ms))` for a non-empty list `ms`: occurrence counts
for `0 .. max ms`, then the first index attaining the maximal count. -/
def bincountArgmax (ms : List ℕ) : ℕ :=
  firstArgmax ((List.range (listMaxN ms + 1)).map fun k => ms.count k)

/-- The `auto` unit vote (lines 67-78): bucket of every non-zero finite
element of the batch as seen by the function, most frequent bucket wins,
`np.argmax` breaking ties towards the smaller index; bucket `0` if there is
no non-zero finite element. -/
def autoModeIdx (xs : List RVal) : ℕ :=
  let pool := xs.filter isNzFinite
  if pool.isEmpty then 0
  else bincountArgmax (pool.map fun v => bucketOf (finPart v))

/-! ## `nnumber` (numbers.py, lines 14-136) -/

/-- The keyword configuration of `nnumber`.  The `prefix` / `suffix`
arguments of the source are called `preStr` / `sufStr` here. -/
structure NumCfg where
  digits : ℕ := 1
  unit : String := "custom"
  unit_labels : UnitLabels := {}
  preStr : String := ""
  sufStr : String := ""
  thousand_separator : String := ","
deriving DecidableEq, Repr

/-- The two failure kinds of `nnumber`: the explicit
`raise ValueError("Invalid unit")` (line 90, the spec's
`ConfigurationError`) and the `ValueError` numpy raises when an element
cannot be coerced to float (line 63, the spec's `ConversionError`). -/
inductive FmtErr where
  | configError : FmtErr
  | conversionError : FmtErr
deriving DecidableEq, Repr

/-- A raw batch cell before `np.asanyarray(..., dtype=float)`: an actual
number, a missing value (`None`), or a piece of non-numeric text. -/
inductive RawCell where
  | num (v : RVal) : RawCell
  | null : RawCell
  | text (s : String) : RawCell
deriving DecidableEq, Repr

/-- The float a convertible cell converts to: `None` becomes `nan`
(junk value `nan` on text, which never converts). -/
def RawCell.val : RawCell → RVal
  | .num v => v
  | .null => .nan
  | .text _ => .nan

/-- Does the batch contain a non-convertible (text) cell? -/
def hasText (xs : List RawCell) : Bool :=
  xs.any fun c => match c with
    | .text _ => true
    | _ => false

/-- `np.asanyarray(number, dtype=float)` (line 63): fails on any
non-numeric text element, otherwise converts every cell (`None` to `nan`). -/
def convertCells (xs : List RawCell) : Except FmtErr (List RVal) :=
  if hasText xs then .error .conversionError else .ok (xs.map RawCell.val)

/-- The unit-mode resolution of lines 67-90, run after conversion: `auto`
votes a single bucket, `custom` formats per distinct value, a label
occurring in `labels` fixes that bucket, anything else raises
`ValueError("Invalid unit")`. -/
def resolveUnit (cfg : NumCfg) (xf : List RVal) : Except FmtErr (Bool × ℕ) :=
  if cfg.unit = "auto" then .ok (true, autoModeIdx xf)
  else if cfg.unit = "custom" then .ok (false, 0)
  else if cfg.unit ∈ labelsList cfg.unit_labels then
    .ok (true, (labelsList cfg.unit_labels).indexOf cfg.unit)
  else .error .configError

/-- Modelled from the spec: `_sandwich` lives in `utils.py`, which is absent
from the sources.  Spec section 4.2: "wrap with prefix/suffix if provided". -/
def sandwichStr (pre suf s : String) : String := pre ++ s ++ suf

/-- The rendering of one distinct value (lines 109-134): scale by the factor
of its bucket (the fixed bucket in `auto` / fixed-label mode, its own bucket
in `custom` mode), format with grouping, install the requested separator,
append a space plus the unit label when that label is non-empty, and wrap
with prefix/suffix when at least one of them is non-empty. -/
def renderOne (cfg : NumCfg) (fixed : Bool) (fidx : ℕ) (v : RVal) : String :=
  let idx := if fixed then fidx else bucketR v
  let scaled := v.mulQ (factorAt idx)
  let s1 := applySep cfg.thousand_separator (pyFormatFloat true cfg.digits scaled)
  let lbl := labelAt cfg.unit_labels idx
  let s2 := if lbl ≠ "" then s1 ++ " " ++ lbl else s1
  if cfg.preStr ≠ "" ∨ cfg.sufStr ≠ "" then sandwichStr cfg.preStr cfg.sufStr s2 else s2

/-- The distinct values of a batch, as used by `np.unique(x_flat,
return_inverse=True)` (line 92).  `np.unique` returns them sorted; the
output gathered back through the inverse map provably does not depend on
that order, so the model keeps the duplicate-free list `List.dedup`. -/
def npUniqueList {α : Type} [DecidableEq α] (xs : List α) : List α := xs.dedup

/-- `formatted_uvals[inverse]` (line 136): scatter the per-distinct-value
strings back to every original position through the inverse index map. -/
def gatherFmt {α : Type} [DecidableEq α] (distinct : List α) (formatted : List String)
    (xs : List α) : List String :=
  xs.map fun v => formatted.getD (distinct.indexOf v) ""

/-- The body of `nnumber` (lines 46-136): convert, resolve the unit mode,
deduplicate, render each distinct value once, gather back. -/
def nnumberBody (cfg : NumCfg) (cells : List RawCell) : Except FmtErr (List String) :=
  match convertCells cells with
  | .error e => .error e
  | .ok xf =>
    match resolveUnit cfg xf with
    | .error e => .error e
    | .ok fi =>
      let uvals := npUniqueList xf
      .ok (gatherFmt uvals (uvals.map (renderOne cfg fi.1 fi.2)) xf)

/-- Modelled from the spec: the decorator `_unique_optimization` lives in
`utils.py`, which is absent from the sources.  Spec section 4.1: compute
`(distinct, inverse)` with `distinct[inverse[i]] == batch[i]`, apply the
wrapped formatter to the distinct values only, gather the result back
through the inverse map; errors of the wrapped formatter propagate. -/
def uniqueOptimizationE (F : List RawCell → Except FmtErr (List String))
    (cells : List RawCell) : Except FmtErr (List String) :=
  let distinct := npUniqueList cells
  match F distinct with
  | .error e => .error e
  | .ok fs => .ok (gatherFmt distinct fs cells)

/-- Modelled from the spec: the pure contract of `_unique_optimization`
(spec section 4.1) for a per-value formatting function `fmt`. -/
def uniqueOptimization {α : Type} [DecidableEq α] (fmt : α → String)
    (xs : List α) : List String :=
  let distinct := npUniqueList xs
  gatherFmt distinct (distinct.map fmt) xs

/-- `@_unique_optimization nnumber`: the full number formatter. -/
def nnumber (cfg : NumCfg) (cells : List RawCell) : Except FmtErr (List String) :=
  uniqueOptimizationE (nnumberBody cfg) cells

/-- `nnumber` on a purely numeric batch (every cell an actual number). -/
def nnumberNums (cfg : NumCfg) (xs : List RVal) : Except FmtErr (List String) :=
  nnumber cfg (xs.map RawCell.num)

/-! ## `npercent` (numbers.py, lines 139-221)

`npercent` is elementwise apart from its empty-batch early return; its
`@_unique_optimization` wrapper is the decorator proven transparent in the
`C1` theorem below and is therefore not repeated here. -/

/-- The keyword configuration of `npercent`.  The `is_ratio` argument of the
source is called `ratioInput` here. -/
structure PctCfg where
  ratioInput : Bool := true
  digits : ℕ := 1
  show_plus_sign : Bool := true
  show_growth_factor : Bool := false
  show_bps : Bool := false
deriving DecidableEq, Repr

/-- The growth-factor label of one element (lines 190-206), `g` being the
ratio-form value `x / 100`: the `np.where` cascade resolves to `"(G.Tx
Growth)"` for `g ≥ 1`, `"(|g|.Tx Drop)"` for `g ≤ -1`, and the small labels
`"(Flat)"` / `"(Growth)"` / `"(Drop)"` in between (with `nan` falling
through every comparison to `"(Drop)"`). -/
def growthLbl (g : RVal) : String :=
  let gAbs := pyFormatFloat false 1 g.absV
  let small := if g.eqZero then " (Flat)" else if g.gtZero then " (Growth)" else " (Drop)"
  if g.geQ 1 then " (" ++ gAbs ++ "x Growth)"
  else if g.leQ (-1) then " (" ++ gAbs ++ "x Drop)"
  else small

/-- The basis-points label of one element (lines 208-213): `b` formatted as
`f"{b:+.0f}"` unless `b != 0` fails, in which case the bare `"0"`; wrapped
as `" (<bps> bps)"`. -/
def bpsLbl (b : RVal) : String :=
  let core := match b with
    | .fin q =>
      if q = 0 then "0"
      else (if q < 0 then "-" else "+") ++ (Nat.toDigits 10 (rhe |q|).toNat).asString
    | .nan => "+nan"
    | .inf => "+inf"
    | .ninf => "-inf"
  " (" ++ core ++ " bps)"

/-- `npercent` (lines 139-221): scale ratios by `100`, early-return on an
empty batch, render with fixed decimals, prepend `+` to strictly positive
values when requested, append `%`, then append the requested annotation
block.  The source appends the basis-points label twice: the statement
`extras_arr = np.char.add(extras_arr, bps_lbl)` occurs verbatim on lines
215 and 217, and the model reproduces that faithfully. -/
def npercent (cfg : PctCfg) (xs : List RVal) : List String :=
  let x := if cfg.ratioInput then xs.map (RVal.mulQ · 100) else xs
  if x.length = 0 then []
  else
    let s0 := x.map (pyFormatFloat false cfg.digits)
    let s1 := if cfg.show_plus_sign then
        (x.zip s0).map (fun p => if p.1.gtZero then "+" ++ p.2 else p.2)
      else s0
    let s2 := s1.map (· ++ "%")
    if cfg.show_growth_factor ∨ cfg.show_bps then
      let e0 : List (RVal × String) := x.map (fun v => (v, ""))
      let e1 := if cfg.show_growth_factor then
          e0.map (fun p => (p.1, p.2 ++ growthLbl (p.1.mulQ (1 / 100))))
        else e0
      let e2 := if cfg.show_bps then
          e1.map (fun p => (p.1, p.2 ++ bpsLbl (p.1.mulQ 100) ++ bpsLbl (p.1.mulQ 100)))
        else e1
      (s2.zip e2).map (fun p => p.1 ++ p.2.2)
    else s2

/-! ## Dates and timestamps (dates.py)

`datetime64` values are embedded at the precision the code observes them:
a `Date` is the civil triple a `datetime64[D]` prints as, a `Ts` adds the
second-resolution clock fields.  `dt64.astype("datetime64[D]").astype(int)`
is the epoch-day count, reproduced exactly by the standard civil-from-days
correspondence `daysFromCivil`.  The `@_unique_optimization` wrappers are
the decorator proven transparent in the `C1` theorem below and are not
repeated here. -/

/-- A civil date (what `np.datetime_as_string(-, unit="D")` prints). -/
structure Date where
  year : ℕ
  month : ℕ
  day : ℕ
deriving DecidableEq, Repr

/-- The proleptic-Gregorian day count from 1970-01-01 — the integer a
`datetime64[D]` holds (Howard Hinnant's `days_from_civil`). -/
def daysFromCivil (dt : Date) : ℤ :=
  let y : ℤ := if dt.month ≤ 2 then (dt.year : ℤ) - 1 else (dt.year : ℤ)
  let era := y / 400
  let yoe := y - era * 400
  let mp : ℤ := ((dt.month : ℤ) + 9) % 12
  let doy := (153 * mp + 2) / 5 + (dt.day : ℤ) - 1
  let doe := yoe * 365 + yoe / 4 - yoe / 100 + doy
  era * 146097 + doe - 719468

/-- The weekday table of `_get_weekday_name_vec` (line 22). -/
def weekTable : List String := ["Mon", "Tue", "Wed", "Thu", "Fri", "Sat", "Sun"]

/-- `_get_weekday_name_vec` (lines 6-23) on one value:
`labels[(days + 3) % 7]`. -/
def weekdayName (dt : Date) : String :=
  weekTable.getD ((daysFromCivil dt + 3) % 7).toNat ""

/-- `months_full` (lines 140-141 / 152-153 / 233-234). -/
def monthTable : List String :=
  ["", "Jan", "Feb", "Mar", "Apr", "May", "Jun",
   "Jul", "Aug", "Sep", "Oct", "Nov", "Dec"]

/-- A two-digit zero-padded field, as the code obtains from a 2-character
slice of the ISO string (valid fields are below 100). -/
def pad2 (n : ℕ) : String :=
  [Nat.digitChar (n / 10 % 10), Nat.digitChar (n % 10)].asString

/-- The four-digit zero-padded year, as the code obtains from the
4-character slice `s[0:4]` of the ISO string (valid years are 1-9999). -/
def pad4 (n : ℕ) : String :=
  [Nat.digitChar (n / 1000 % 10), Nat.digitChar (n / 100 % 10),
   Nat.digitChar (n / 10 % 10), Nat.digitChar (n % 10)].asString

/-- A normalized temporal batch as the dtype checks of lines 112-135 see
it: either the whole batch failed to convert to a `datetime64` dtype
(length `n` retained), or a list of cells, each a valid instant or `NaT`. -/
inductive TemporalBatch (α : Type) where
  | failed (n : ℕ) : TemporalBatch α
  | cells (xs : List (Option α)) : TemporalBatch α
deriving DecidableEq, Repr

/-- The keyword configuration of `ndate`. -/
structure DateCfg where
  show_weekday : Bool := true
  show_month_year : Bool := false
deriving DecidableEq, Repr

/-- The single-quote character of the compact `Mon-quote-YY` form. -/
def quoteChar : Char := Char.ofNat 39

/-- The rendering of one valid date by `ndate` (lines 137-170): compact
month-quote-year when `show_month_year` is set (ignoring `show_weekday`),
otherwise `"Mon DD, YYYY"` plus the `" (Weekday)"` parenthetical when
`show_weekday` is set. -/
def ndateSingle (cfg : DateCfg) (dt : Date) : String :=
  if cfg.show_month_year then
    monthTable.getD dt.month "" ++ String.singleton quoteChar ++ (pad4 dt.year).drop 2
  else
    let s := monthTable.getD dt.month "" ++ " " ++ pad2 dt.day ++ ", " ++ pad4 dt.year
    if cfg.show_weekday then s ++ " (" ++ weekdayName dt ++ ")" else s

/-- `ndate` (lines 91-173): empty batches return empty, a batch that failed
dtype normalization renders `"NaT"` everywhere, otherwise every `NaT` cell
renders `"NaT"` and every valid cell its formatted date (the mask/scatter
of lines 129-172). -/
def ndate (cfg : DateCfg) : TemporalBatch Date → List String
  | .failed n => List.replicate n "NaT"
  | .cells xs =>
    if xs.length = 0 then []
    else xs.map fun c => match c with
      | none => "NaT"
      | some dt => ndateSingle cfg dt

/-- The relative-day alias of `nday` (lines 77-83): the masked assignments
write, in source order, `"Last "` on `2 ≤ diff ≤ 8`, `"Yesterday, "` on
`diff = 1`, `"Today, "` on `diff = 0`, `"Tomorrow, "` on `diff = -1` and
`"Coming "` on `-8 ≤ diff ≤ -2`; the ranges are disjoint, the later
assignments winning is mirrored by testing them first. -/
def aliasFor (diff : ℤ) : String :=
  if -8 ≤ diff ∧ diff ≤ -2 then "Coming "
  else if diff = -1 then "Tomorrow, "
  else if diff = 0 then "Today, "
  else if diff = 1 then "Yesterday, "
  else if 2 ≤ diff ∧ diff ≤ 8 then "Last "
  else ""

/-- The rendering of one valid date by `nday` (lines 67-87), `today` being
the epoch-day of the single `np.datetime64("today")` read of line 70
(modelled as a parameter, taken once per call). -/
def ndaySingle (show_relative_day : Bool) (today : ℤ) (dt : Date) : String :=
  if show_relative_day then aliasFor (today - daysFromCivil dt) ++ weekdayName dt
  else weekdayName dt

/-- `nday` (lines 25-88): empty batches return empty, a batch that failed
dtype normalization renders `"NaT"` everywhere, otherwise `NaT` cells
render `"NaT"` and valid cells their (possibly alias-prefixed) weekday. -/
def nday (show_relative_day : Bool) (today : ℤ) : TemporalBatch Date → List String
  | .failed n => List.replicate n "NaT"
  | .cells xs =>
    if xs.length = 0 then []
    else xs.map fun c => match c with
      | none => "NaT"
      | some dt => ndaySingle show_relative_day today dt

/-- A second-resolution instant (what `np.datetime_as_string(-, unit="s")`
prints). -/
structure Ts where
  date : Date
  hh : ℕ
  mi : ℕ
  ss : ℕ
deriving DecidableEq, Repr

/-- The keyword configuration of `ntimestamp`.  `show_timezone` is accepted
and never read (the source's line 273-274 is `if show_timezone: pass`). -/
structure TsCfg where
  show_weekday : Bool := true
  show_date : Bool := true
  show_hours : Bool := true
  show_minutes : Bool := true
  show_seconds : Bool := true
  show_timezone : Bool := true
deriving DecidableEq, Repr

/-- The 12-hour conversion of lines 257-259 (`hh_12[hh_12 == 0] = 12` then
`hh_12[hh_12 > 12] -= 12`). -/
def hh12 (h : ℕ) : ℕ := if h = 0 then 12 else if h > 12 then h - 12 else h

/-- The rendering of one valid instant by `ntimestamp` (lines 230-288):
the optional parts are collected in fixed order into `parts_list`, the
AM/PM marker (`PM` iff `hour ≥ 12`) is always appended, the parts are
concatenated, and the weekday parenthetical is appended last. -/
def ntimestampSingle (cfg : TsCfg) (t : Ts) : String :=
  let dparts := if cfg.show_date then
      [monthTable.getD t.date.month "" ++ " " ++ pad2 t.date.day ++ ", " ++
        pad4 t.date.year ++ " "]
    else []
  let hparts := if cfg.show_hours then [pad2 (hh12 t.hh) ++ "H"] else []
  let mparts := if cfg.show_minutes then [" " ++ pad2 t.mi ++ "M"] else []
  let sparts := if cfg.show_seconds then [" " ++ pad2 t.ss ++ "S"] else []
  let ampm := if t.hh ≥ 12 then " PM" else " AM"
  let combined := String.join (dparts ++ hparts ++ mparts ++ sparts ++ [ampm])
  if cfg.show_weekday then combined ++ " (" ++ weekdayName t.date ++ ")" else combined

/-- `ntimestamp` (lines 175-289): empty batches return empty, a batch that
failed dtype normalization renders `"NaT"` everywhere, otherwise `NaT`
cells render `"NaT"` and valid cells their assembled string. -/
def ntimestamp (cfg : TsCfg) : TemporalBatch Ts → List String
  | .failed n => List.replicate n "NaT"
  | .cells xs =>
    if xs.length = 0 then []
    else xs.map fun c => match c with
      | none => "NaT"
      | some t => ntimestampSingle cfg t

/-- The calendar range on which the ISO-string slicing of `dates.py` is
exact: four-digit years and in-range month/day fields. -/
def ValidDate (dt : Date) : Prop :=
  1 ≤ dt.year ∧ dt.year ≤ 9999 ∧ 1 ≤ dt.month ∧ dt.month ≤ 12 ∧ 1 ≤ dt.day ∧ dt.day ≤ 31

/-- Validity for second-resolution instants. -/
def ValidTs (t : Ts) : Prop :=
  ValidDate t.date ∧ t.hh ≤ 23 ∧ t.mi ≤ 59 ∧ t.ss ≤ 59

instance (dt : Date) : Decidable (ValidDate dt) := by
  unfold ValidDate; infer_instance

instance (t : Ts) : Decidable (ValidTs t) := by
  unfold ValidTs; infer_instance

/-! ## Stating devices used by the theorems below -/

/-- The number of distinct non-zero finite values of a batch whose
magnitude bucket is `k` — the quantity the `auto` vote maximises. -/
def distinctBucketCount (xs : List RVal) (k : ℕ) : ℕ :=
  (((npUniqueList xs).filter isNzFinite).map bucketR).count k

/-- The literal token a non-finite value renders as. -/
def nonFiniteTok : RVal → String
  | .nan => "nan"
  | .inf => "inf"
  | .ninf => "-inf"
  | .fin _ => ""

instance instDecEqExcept {ε α : Type} [DecidableEq ε] [DecidableEq α] :
    DecidableEq (Except ε α) := fun a b =>
  match a, b with
  | .ok x, .ok y =>
    if h : x = y then isTrue (by subst h; rfl)
    else isFalse (fun hh => h (Except.ok.inj hh))
  | .error x, .error y =>
    if h : x = y then isTrue (by subst h; rfl)
    else isFalse (fun hh => h (Except.error.inj hh))
  | .ok _, .error _ => isFalse (fun hh => Except.noConfusion hh)
  | .error _, .ok _ => isFalse (fun hh => Except.noConfusion hh)

/-! ## Workhorse lemmas: the dedup/format/scatter machinery is transparent -/

theorem gatherFmt_map {α : Type} [DecidableEq α] (g : α → String) (xs : List α) :
    gatherFmt (npUniqueList xs) ((npUniqueList xs).map g) xs = xs.map g := by
  unfold gatherFmt npUniqueList
  refine List.map_congr_left fun v hv => ?_
  have hm : v ∈ xs.dedup := List.mem_dedup.mpr hv
  have hidx : xs.dedup.indexOf v < xs.dedup.length := List.indexOf_lt_length.mpr hm
  have hidx2 : xs.dedup.indexOf v < (xs.dedup.map g).length := by simpa using hidx
  rw [List.getD_eq_getElem?_getD, List.getElem?_eq_getElem hidx2]
  simp [List.getElem_indexOf hidx]

theorem hasText_iff (xs : List RawCell) :
    hasText xs = true ↔ ∃ s, RawCell.text s ∈ xs := by
  unfold hasText
  rw [List.any_eq_true]
  constructor
  · rintro ⟨c, hc, hm⟩
    match c, hm with
    | .text s, _ => exact ⟨s, hc⟩
  · rintro ⟨s, hs⟩
    exact ⟨.text s, hs, rfl⟩

theorem hasText_dedup (xs : List RawCell) : hasText xs.dedup = hasText xs := by
  rw [Bool.eq_iff_iff, hasText_iff, hasText_iff]
  simp [List.mem_dedup]

/-- The full `nnumber` pipeline collapses to an element-wise map: when the
batch converts and the unit mode resolves on the distinct values, every
position is rendered independently by `renderOne`. -/
theorem nnumber_eq_map (cfg : NumCfg) (cells : List RawCell) (fi : Bool × ℕ)
    (hconv : hasText cells = false)
    (hres : resolveUnit cfg (cells.dedup.map RawCell.val) = .ok fi) :
    nnumber cfg cells = .ok (cells.map fun c => renderOne cfg fi.1 fi.2 c.val) := by
  simp only [nnumber, uniqueOptimizationE, nnumberBody, convertCells, npUniqueList]
  rw [hasText_dedup, hconv]
  simp only [Bool.false_eq_true, if_false, hres]
  have hbody :
      gatherFmt (npUniqueList (cells.dedup.map RawCell.val))
        ((npUniqueList (cells.dedup.map RawCell.val)).map (renderOne cfg fi.1 fi.2))
        (cells.dedup.map RawCell.val)
      = (cells.dedup.map RawCell.val).map (renderOne cfg fi.1 fi.2) :=
    gatherFmt_map _ _
  unfold npUniqueList at hbody
  rw [hbody, List.map_map]
  have houter := gatherFmt_map (renderOne cfg fi.1 fi.2 ∘ RawCell.val) cells
  unfold npUniqueList at houter
  rw [houter]
  simp [Function.comp]

/-- A batch containing non-numeric text fails with the conversion error. -/
theorem nnumber_text_error (cfg : NumCfg) (cells : List RawCell)
    (h : hasText cells = true) :
    nnumber cfg cells = .error .conversionError := by
  simp only [nnumber, uniqueOptimizationE, nnumberBody, convertCells, npUniqueList]
  rw [hasText_dedup, h]
  simp

/-- A convertible batch whose unit mode fails to resolve propagates the
configuration error. -/
theorem nnumber_config_error (cfg : NumCfg) (cells : List RawCell)
    (hconv : hasText cells = false)
    (hres : resolveUnit cfg (cells.dedup.map RawCell.val) = .error .configError) :
    nnumber cfg cells = .error .configError := by
  simp only [nnumber, uniqueOptimizationE, nnumberBody, convertCells, npUniqueList]
  rw [hasText_dedup, hconv]
  simp only [Bool.false_eq_true, if_false, hres]

/-- `bucketOf` in closed form: `clip(floor(log10(|v|) / 3), 0, 4)` equals the
threshold table at the powers `10^3, 10^6, 10^9, 10^12` (this is the shape
used to evaluate the formatter on concrete inputs, since `Int.log` is not
kernel-reducible). -/
theorem bucketOf_eq (q : ℚ) :
    bucketOf q =
      if |q| < 1000 then 0
      else if |q| < 1000000 then 1
      else if |q| < 1000000000 then 2
      else if |q| < 1000000000000 then 3
      else 4 := by
  by_cases h0 : q = 0
  · subst h0
    simp [bucketOf, Int.log_zero_right]
  · have habs : (0:ℚ) < |q| := abs_pos.mpr h0
    have hb : 1 < 10 := by norm_num
    unfold bucketOf
    rw [Int.fdiv_eq_ediv _ (by norm_num)]
    have e3 : (((10:ℕ)):ℚ) ^ (3:ℤ) = 1000 := by norm_num
    have e6 : (((10:ℕ)):ℚ) ^ (6:ℤ) = 1000000 := by norm_num
    have e9 : (((10:ℕ)):ℚ) ^ (9:ℤ) = 1000000000 := by norm_num
    have e12 : (((10:ℕ)):ℚ) ^ (12:ℤ) = 1000000000000 := by norm_num
    split_ifs with h1 h2 h3 h4
    · have hlt : Int.log 10 |q| < 3 :=
        (Int.lt_zpow_iff_log_lt hb habs).mp (by rw [e3]; exact_mod_cast h1)
      omega
    · have hge : (3:ℤ) ≤ Int.log 10 |q| :=
        (Int.zpow_le_iff_le_log hb habs).mp (by rw [e3]; exact_mod_cast not_lt.mp h1)
      have hlt : Int.log 10 |q| < 6 :=
        (Int.lt_zpow_iff_log_lt hb habs).mp (by rw [e6]; exact_mod_cast h2)
      omega
    · have hge : (6:ℤ) ≤ Int.log 10 |q| :=
        (Int.zpow_le_iff_le_log hb habs).mp (by rw [e6]; exact_mod_cast not_lt.mp h2)
      have hlt : Int.log 10 |q| < 9 :=
        (Int.lt_zpow_iff_log_lt hb habs).mp (by rw [e9]; exact_mod_cast h3)
      omega
    · have hge : (9:ℤ) ≤ Int.log 10 |q| :=
        (Int.zpow_le_iff_le_log hb habs).mp (by rw [e9]; exact_mod_cast not_lt.mp h3)
      have hlt : Int.log 10 |q| < 12 :=
        (Int.lt_zpow_iff_log_lt hb habs).mp (by rw [e12]; exact_mod_cast h4)
      omega
    · have hge : (12:ℤ) ≤ Int.log 10 |q| :=
        (Int.zpow_le_iff_le_log hb habs).mp (by rw [e12]; exact_mod_cast not_lt.mp h4)
      omega

theorem dedup_map_num (xs : List RVal) :
    (xs.map RawCell.num).dedup.map RawCell.val = xs.dedup := by
  have hinj : Function.Injective RawCell.num := fun a b h => by injection h
  rw [List.dedup_map_of_injective hinj, List.map_map]
  have h : ∀ v : RVal, (RawCell.val ∘ RawCell.num) v = id v := fun v => rfl
  rw [funext h, List.map_id]

/-- On a purely numeric batch the pipeline is the element-wise map of
`renderOne` under the resolved unit mode, the `auto` vote seeing exactly the
distinct values of the batch. -/
theorem nnumberNums_eq_map (cfg : NumCfg) (xs : List RVal) (fi : Bool × ℕ)
    (hres : resolveUnit cfg xs.dedup = .ok fi) :
    nnumberNums cfg xs = .ok (xs.map (renderOne cfg fi.1 fi.2)) := by
  unfold nnumberNums
  have hconv : hasText (xs.map RawCell.num) = false := by
    rw [← Bool.not_eq_true, hasText_iff]
    rintro ⟨s, hs⟩
    rcases List.mem_map.mp hs with ⟨v, _, hv⟩
    simp at hv
  have hres2 : resolveUnit cfg ((xs.map RawCell.num).dedup.map RawCell.val) = .ok fi := by
    rw [dedup_map_num]; exact hres
  rw [nnumber_eq_map cfg (xs.map RawCell.num) fi hconv hres2, List.map_map]
  have h : ∀ v : RVal,
      ((fun c : RawCell => renderOne cfg fi.1 fi.2 c.val) ∘ RawCell.num) v =
        renderOne cfg fi.1 fi.2 v := fun v => rfl
  rw [funext h]

/-! ## The claims -/

/-- C1: for every batch and every per-value formatter, the
deduplicate/format-once/gather optimization returns exactly the naive
element-wise result: `format(B) = map(fmt, B)` and `format(B)[i] =
fmt(B[i])` at every position `i`. -/
theorem dedup_transparency {α : Type} [DecidableEq α] (fmt : α → String) (xs : List α) :
    uniqueOptimization fmt xs = xs.map fmt ∧
    ∀ (i : ℕ) (hi : i < xs.length),
      (uniqueOptimization fmt xs).getD i "" = fmt (xs.get ⟨i, hi⟩) := by
  have h : uniqueOptimization fmt xs = xs.map fmt := gatherFmt_map fmt xs
  refine ⟨h, fun i hi => ?_⟩
  rw [h, List.getD_eq_getElem?_getD, List.getElem?_eq_getElem (by simpa using hi)]
  simp [List.get_eq_getElem]

theorem dedup_transparency_witness :
    uniqueOptimization (pyFormatFloat true 1) [RVal.fin 5, RVal.nan, RVal.fin 5] =
      ["5.0", "nan", "5.0"] ∧
    (uniqueOptimization (pyFormatFloat true 1) [RVal.fin 5, RVal.nan, RVal.fin 5]).getD 2 ""
      = "5.0" := by
  have h := dedup_transparency (pyFormatFloat true 1) [RVal.fin 5, RVal.nan, RVal.fin 5]
  exact ⟨h.1.trans (by with_unfolding_all decide),
    (h.2 2 (by decide)).trans (by with_unfolding_all decide)⟩

/-- C8: an unrecognized unit keyword on a convertible batch raises the
configuration error (no output is produced); a batch containing an element
that cannot be coerced to a real number raises the conversion error; a
null/missing element is not an error — `number([null])` returns
`["nan"]`. -/
theorem number_error_handling :
    (∀ (cfg : NumCfg) (cells : List RawCell), hasText cells = false →
        cfg.unit ≠ "auto" → cfg.unit ≠ "custom" →
        cfg.unit ∉ labelsList cfg.unit_labels →
        nnumber cfg cells = .error .configError) ∧
    (∀ (cfg : NumCfg) (cells : List RawCell), hasText cells = true →
        nnumber cfg cells = .error .conversionError) ∧
    nnumber {} [RawCell.null] = .ok ["nan"] := by
  refine ⟨fun cfg cells h ha hc hl => ?_, fun cfg cells h => nnumber_text_error cfg cells h, ?_⟩
  · exact nnumber_config_error cfg cells h (by simp [resolveUnit, ha, hc, hl])
  · with_unfolding_all decide

theorem number_error_handling_witness :
    nnumber { unit := "bogus" } [RawCell.num (RVal.fin 1)] = .error .configError ∧
    nnumber {} [RawCell.text "abc"] = .error .conversionError :=
  ⟨number_error_handling.1 { unit := "bogus" } [RawCell.num (RVal.fin 1)]
      (by decide) (by decide) (by decide) (by decide),
    number_error_handling.2.1 {} [RawCell.text "abc"] (by decide)⟩

/-- C5: in the default `custom` unit mode every value is scaled by its own
bucket, computed independently per value (the whole pipeline is the
element-wise map of the per-value renderer); zero and non-finite values get
bucket `0`; and the spec's nine-value scenario renders exactly as stated. -/
theorem custom_unit_per_value :
    (∀ (cfg : NumCfg) (xs : List RVal), cfg.unit = "custom" →
        nnumberNums cfg xs = .ok (xs.map (renderOne cfg false 0))) ∧
    (∀ v : RVal, v.isFinite = false ∨ v.eqZero = true → bucketR v = 0) ∧
    nnumberNums { digits := 1 } [.fin 10, .fin 100, .fin 1000, .fin 10000, .fin 100000,
        .fin 1000000, .fin 10000000, .fin 100000000, .fin 1000000000] =
      .ok ["10.0", "100.0", "1.0 K", "10.0 K", "100.0 K", "1.0 Mn", "10.0 Mn", "100.0 Mn",
        "1.0 Bn"] := by
  refine ⟨fun cfg xs h => nnumberNums_eq_map cfg xs (false, 0) ?_, ?_, ?_⟩
  · simp [resolveUnit, h]
  · rintro v (h | h) <;> cases v <;> simp_all [bucketR, RVal.isFinite, RVal.eqZero]
  · rw [nnumberNums_eq_map _ _ (false, 0) (by with_unfolding_all decide)]
    simp only [List.map_cons, List.map_nil, renderOne, bucketR, bucketOf_eq]
    with_unfolding_all decide

theorem custom_unit_per_value_witness :
    nnumberNums { digits := 1 } [RVal.fin 1500, RVal.fin 3] =
      .ok [renderOne { digits := 1 } false 0 (RVal.fin 1500),
        renderOne { digits := 1 } false 0 (RVal.fin 3)] ∧
    nnumberNums { digits := 1 } [RVal.fin 1500, RVal.fin 3] = .ok ["1.5 K", "3.0"] := by
  have h := custom_unit_per_value.1 { digits := 1 } [RVal.fin 1500, RVal.fin 3] rfl
  refine ⟨h, h.trans ?_⟩
  simp only [List.map_cons, List.map_nil, renderOne, bucketR, bucketOf_eq]
  with_unfolding_all decide

theorem charReplace_id (c : Char) (rep : List Char) (l : List Char) (h : c ∉ l) :
    charReplace c rep l = l := by
  induction l with
  | nil => rfl
  | cons ch rest ih =>
    rw [List.mem_cons, not_or] at h
    unfold charReplace
    rw [if_neg (fun hh => h.1 hh.symm), ih h.2]
    rfl

theorem applySep_id (sep : String) (s : String)
    (h : ∀ c ∈ s.data, c ≠ ',' ∧ c ≠ '.' ∧ c ≠ 'X') : applySep sep s = s := by
  have h1 : ',' ∉ s.data := fun hm => (h _ hm).1 rfl
  have h2 : '.' ∉ s.data := fun hm => (h _ hm).2.1 rfl
  have h3 : 'X' ∉ s.data := fun hm => (h _ hm).2.2 rfl
  unfold applySep
  split_ifs with hs1 hs2
  · rfl
  · rw [charReplace_id _ _ _ h1, charReplace_id _ _ _ h2, charReplace_id _ _ _ h3]
    exact String.asString_toList s
  · rw [charReplace_id _ _ _ h1]
    exact String.asString_toList s

theorem factorAt_pos (i : ℕ) : 0 < factorAt i := by
  rcases i with _ | _ | _ | _ | _ | n
  · with_unfolding_all decide
  · with_unfolding_all decide
  · with_unfolding_all decide
  · with_unfolding_all decide
  · with_unfolding_all decide
  · have : factorAt (n + 5) = 1 := by
      unfold factorAt factorsList
      rw [List.getD_eq_getElem?_getD, List.getElem?_eq_none (by simp)]
      rfl
    rw [this]
    norm_num

/-- The prefix/suffix wrap of lines 133-134 in closed form: whether or not
the guard fires, the result is `pre ++ s ++ suf`. -/
theorem sandwichStr_if (pre suf s : String) :
    (if pre ≠ "" ∨ suf ≠ "" then sandwichStr pre suf s else s) = pre ++ s ++ suf := by
  split_ifs with h
  · rfl
  · push_neg at h
    rw [h.1, h.2]
    simp

/-- The per-value renderer on a non-finite value: the bare token, the unit
label of the resolved bucket when there is one, wrapped in the configured
prefix/suffix. -/
theorem renderOne_nonfinite (cfg : NumCfg) (fixed : Bool) (fidx : ℕ) (v : RVal)
    (h : v.isFinite = false) :
    renderOne cfg fixed fidx v =
      cfg.preStr ++ nonFiniteTok v ++
        (if fixed = true ∧ labelAt cfg.unit_labels fidx ≠ "" then
          " " ++ labelAt cfg.unit_labels fidx else "") ++ cfg.sufStr := by
  have hfmt : pyFormatFloat true cfg.digits (v.mulQ (factorAt (if fixed then fidx else bucketR v)))
      = nonFiniteTok v := by
    have hpos := factorAt_pos (if fixed then fidx else bucketR v)
    cases v <;> simp_all [RVal.mulQ, pyFormatFloat, nonFiniteTok, RVal.isFinite, hpos]
  have htok : ∀ c ∈ (nonFiniteTok v).data, c ≠ ',' ∧ c ≠ '.' ∧ c ≠ 'X' := by
    cases v <;> simp_all [RVal.isFinite, nonFiniteTok]
  have hsep : applySep cfg.thousand_separator
      (pyFormatFloat true cfg.digits (v.mulQ (factorAt (if fixed then fidx else bucketR v))))
      = nonFiniteTok v := by
    rw [hfmt]
    exact applySep_id _ _ htok
  have hbkt : bucketR v = 0 := by
    cases v <;> simp_all [RVal.isFinite, bucketR]
  cases fixed with
  | false =>
    simp only [Bool.false_eq_true, if_false] at hsep ⊢
    simp only [renderOne, Bool.false_eq_true, if_false]
    rw [hsep, hbkt]
    have hlbl0 : labelAt cfg.unit_labels 0 = "" := rfl
    rw [hlbl0]
    simp only [ne_eq, not_true_eq_false, if_false, false_and]
    rw [sandwichStr_if]
    simp
  | true =>
    simp only [if_true] at hsep
    simp only [renderOne, if_true]
    rw [hsep, sandwichStr_if]
    simp only [true_and]
    split_ifs with hl
    · simp [String.append_assoc]
    · simp

/-- C4 counterexample: the claim that non-finite elements always format as
the bare token (no unit label, no prefix/suffix treatment) is false on the
code: a fixed unit label is appended to `inf`/`nan` too, and a configured
prefix wraps them. -/
theorem nonfinite_token_counterexample :
    nnumberNums { unit := "Mn" } [RVal.inf] = .ok ["inf Mn"] ∧
    nnumberNums { unit := "Mn" } [RVal.inf] ≠ .ok ["inf"] ∧
    nnumberNums { preStr := "$" } [RVal.nan] = .ok ["$nan"] ∧
    nnumberNums { preStr := "$" } [RVal.nan] ≠ .ok ["nan"] := by
  refine ⟨?_, ?_, ?_, ?_⟩ <;> with_unfolding_all decide

/-- C4 (amended): every NaN or infinite element renders from the bare
literal token `"nan"` / `"inf"` / `"-inf"` with its sign preserved and no
grouping applied, but the unit label selected by a fixed/auto unit mode
(custom mode always selects the empty label for non-finite values) is
appended after the token, and a configured prefix/suffix wraps it like any
other element. -/
theorem nonfinite_token_amended (cfg : NumCfg) (xs : List RVal) (fi : Bool × ℕ)
    (hres : resolveUnit cfg xs.dedup = .ok fi)
    (i : ℕ) (hi : i < xs.length) (hnf : (xs.get ⟨i, hi⟩).isFinite = false) :
    ∃ out, nnumberNums cfg xs = .ok out ∧
      out.getD i "" =
        cfg.preStr ++ nonFiniteTok (xs.get ⟨i, hi⟩) ++
          (if fi.1 = true ∧ labelAt cfg.unit_labels fi.2 ≠ "" then
            " " ++ labelAt cfg.unit_labels fi.2 else "") ++ cfg.sufStr := by
  refine ⟨xs.map (renderOne cfg fi.1 fi.2), nnumberNums_eq_map cfg xs fi hres, ?_⟩
  rw [List.getD_eq_getElem?_getD, List.getElem?_eq_getElem (by simpa using hi)]
  simp only [List.getElem_map, Option.getD_some]
  show renderOne cfg fi.1 fi.2 (xs.get ⟨i, hi⟩) = _
  exact renderOne_nonfinite cfg fi.1 fi.2 _ hnf

theorem nonfinite_token_amended_witness :
    ∃ out, nnumberNums { unit := "Mn", preStr := "$" } [RVal.ninf] = .ok out ∧
      out.getD 0 "" = "$-inf Mn" := by
  obtain ⟨out, h1, h2⟩ :=
    nonfinite_token_amended { unit := "Mn", preStr := "$" } [RVal.ninf] (true, 2)
      (by with_unfolding_all decide) 0 (by decide) (by decide)
  exact ⟨out, h1, h2.trans (by with_unfolding_all decide)⟩

/-- C3: evaluation of `npercent` at the spec scenario input.  The source
duplicates the statement appending the basis-points label (lines 215 and
217), so the annotation appears twice; the growth-factor label, when also
requested, appears once before the two copies. -/
theorem bps_double_append_eval :
    npercent { digits := 2, show_bps := true } [RVal.fin (1 / 100)] =
      ["+1.00% (+100 bps) (+100 bps)"] ∧
    npercent { digits := 2, show_growth_factor := true, show_bps := true }
        [RVal.fin (1 / 100)] =
      ["+1.00% (Growth) (+100 bps) (+100 bps)"] := by
  constructor <;> with_unfolding_all decide

theorem listMaxN_mem : ∀ {l : List ℕ}, l ≠ [] → listMaxN l ∈ l := by
  intro l h
  induction l with
  | nil => exact absurd rfl h
  | cons x xs ih =>
    rcases eq_or_ne xs [] with rfl | hxs
    · simp [listMaxN]
    · have hmem := ih hxs
      unfold listMaxN at hmem ⊢
      simp only [List.foldr_cons]
      rcases Nat.le_total (xs.foldr max 0) x with hle | hle
      · rw [Nat.max_eq_left hle]
        exact List.mem_cons_self _ _
      · rw [Nat.max_eq_right hle]
        exact List.mem_cons_of_mem _ hmem

theorem le_listMaxN : ∀ {l : List ℕ} {x : ℕ}, x ∈ l → x ≤ listMaxN l := by
  intro l
  induction l with
  | nil => intro x hx; cases hx
  | cons y ys ih =>
    intro x hx
    unfold listMaxN
    simp only [List.foldr_cons]
    rcases List.mem_cons.mp hx with rfl | hmem
    · exact Nat.le_max_left _ _
    · exact le_trans (ih hmem) (Nat.le_max_right _ _)

theorem getElem_lt_indexOf_ne {α : Type} [DecidableEq α] :
    ∀ (l : List α) (a : α) (j : ℕ) (hj : j < l.length), j < l.indexOf a →
      l.get ⟨j, hj⟩ ≠ a := by
  intro l
  induction l with
  | nil => intro a j hj; simp at hj
  | cons x xs ih =>
    intro a j hj hlt
    rcases j with _ | j
    · have hgx : (x :: xs).get ⟨0, hj⟩ = x := rfl
      rw [hgx]
      intro hx
      subst hx
      rw [List.indexOf_cons_self] at hlt
      exact Nat.lt_irrefl 0 hlt
    · have hxa : x ≠ a := by
        intro hx
        subst hx
        rw [List.indexOf_cons_self] at hlt
        omega
      rw [List.indexOf_cons_ne _ hxa] at hlt
      exact ih a j (by simpa using hj) (by omega)

/-- `np.argmax(np.bincount(ms))` picks an index of maximal count, breaking
ties towards the smallest index. -/
theorem bincountArgmax_spec (ms : List ℕ) (_hms : ms ≠ []) :
    (∀ j : ℕ, ms.count j ≤ ms.count (bincountArgmax ms)) ∧
    ∀ j : ℕ, ms.count j = ms.count (bincountArgmax ms) → bincountArgmax ms ≤ j := by
  set M := listMaxN ms with hM
  set counts := (List.range (M + 1)).map (fun k => ms.count k) with hcounts
  have hclen : counts.length = M + 1 := by simp [hcounts]
  have hKdef : bincountArgmax ms = counts.indexOf (listMaxN counts) := rfl
  set maxC := listMaxN counts with hmaxC
  have hcne : counts ≠ [] := by
    intro hh
    rw [hh] at hclen
    simp at hclen
  have hmem : maxC ∈ counts := listMaxN_mem hcne
  have hKlt : counts.indexOf maxC < counts.length := List.indexOf_lt_length.mpr hmem
  have hKM : counts.indexOf maxC < M + 1 := by rw [hclen] at hKlt; exact hKlt
  have hget : ∀ j, j < M + 1 → counts.getD j 0 = ms.count j := by
    intro j hj
    rw [List.getD_eq_getElem?_getD, List.getElem?_eq_getElem (by rw [hclen]; omega)]
    simp [hcounts]
  have hKval : counts.getD (counts.indexOf maxC) 0 = maxC := by
    rw [List.getD_eq_getElem?_getD, List.getElem?_eq_getElem hKlt]
    simp [List.getElem_indexOf hKlt]
  have hcountK : ms.count (counts.indexOf maxC) = maxC := by
    rw [← hget _ hKM, hKval]
  have hbound : ∀ j, j < M + 1 → ms.count j ≤ maxC := by
    intro j hj
    have hjlen : j < counts.length := by rw [hclen]; omega
    have hmemj : counts.getD j 0 ∈ counts := by
      rw [List.getD_eq_getElem?_getD, List.getElem?_eq_getElem hjlen]
      exact List.getElem_mem hjlen
    have hle := le_listMaxN hmemj
    rw [hget _ hj] at hle
    exact hle
  rw [hKdef]
  constructor
  · intro j
    rcases Nat.lt_or_ge j (M + 1) with hj | hj
    · rw [hcountK]
      exact hbound j hj
    · have hnot : j ∉ ms := fun hmemj => by
        have := le_listMaxN hmemj
        omega
      rw [List.count_eq_zero.mpr hnot]
      exact Nat.zero_le _
  · intro j hj
    by_contra hlt
    push_neg at hlt
    have hjM : j < M + 1 := by omega
    have hjlen : j < counts.length := by rw [hclen]; omega
    have hgj : counts.getD j 0 = maxC := by
      rw [hget _ hjM, hj, hcountK]
    have hne := getElem_lt_indexOf_ne counts maxC j hjlen hlt
    apply hne
    rw [← hgj, List.getD_eq_getElem?_getD, List.getElem?_eq_getElem hjlen]
    simp [List.get_eq_getElem]

theorem bucketR_eq_nzfinite {v : RVal} (h : isNzFinite v = true) :
    bucketR v = bucketOf (finPart v) := by
  cases v <;> simp_all [isNzFinite, bucketR, finPart]

/-- C2: in `auto` unit mode (with at least one distinct non-zero finite
value in the batch) the formatter selects a single bucket `K` whose
occurrence count over the distinct non-zero finite values (each value's
bucket being `clamp(floor(log10(|v|)/3), 0, 4)`, the definition of
`bucketOf`) is maximal, ties broken towards the smaller bucket index, and
renders every element of the batch with that one bucket. -/
theorem auto_unit_vote (cfg : NumCfg) (xs : List RVal)
    (hunit : cfg.unit = "auto")
    (hpool : (npUniqueList xs).filter isNzFinite ≠ []) :
    ∃ K : ℕ,
      K = autoModeIdx (npUniqueList xs) ∧
      nnumberNums cfg xs = .ok (xs.map (renderOne cfg true K)) ∧
      (∀ j : ℕ, distinctBucketCount xs j ≤ distinctBucketCount xs K) ∧
      (∀ j : ℕ, distinctBucketCount xs j = distinctBucketCount xs K → K ≤ j) := by
  set pool := (npUniqueList xs).filter isNzFinite with hpooldef
  set ms := pool.map (fun v => bucketOf (finPart v)) with hmsdef
  have hcount : ∀ j, distinctBucketCount xs j = ms.count j := by
    intro j
    unfold distinctBucketCount
    rw [← hpooldef, hmsdef]
    congr 1
    refine List.map_congr_left fun v hv => ?_
    exact bucketR_eq_nzfinite (List.mem_filter.mp hv).2
  have hK : autoModeIdx (npUniqueList xs) = bincountArgmax ms := by
    simp only [autoModeIdx]
    rw [← hpooldef, ← hmsdef]
    rw [if_neg (by simp [List.isEmpty_iff, hpool])]
  have hmsne : ms ≠ [] := by
    rw [hmsdef]
    intro hh
    exact hpool (List.map_eq_nil_iff.mp hh)
  obtain ⟨hmax, hmin⟩ := bincountArgmax_spec ms hmsne
  refine ⟨autoModeIdx (npUniqueList xs), rfl, ?_, ?_, ?_⟩
  · exact nnumberNums_eq_map cfg xs (true, autoModeIdx (npUniqueList xs))
      (by simp [resolveUnit, hunit]; rfl)
  · intro j
    rw [hcount j, hcount _, hK]
    exact hmax j
  · intro j hj
    rw [hK]
    refine hmin j ?_
    rw [← hcount j, ← hK, ← hcount _]
    exact hj

theorem auto_unit_vote_witness :
    nnumberNums { unit := "auto" } [RVal.fin 1500, RVal.fin 2000000, RVal.fin 3000] =
      .ok ["1.5 K", "2,000.0 K", "3.0 K"] := by
  obtain ⟨K, hK, h1, hmax, hmin⟩ :=
    auto_unit_vote { unit := "auto" } [RVal.fin 1500, RVal.fin 2000000, RVal.fin 3000] rfl
      (by with_unfolding_all decide)
  have hKval : K = 1 := by
    rw [hK]
    simp only [autoModeIdx, npUniqueList, bucketOf_eq]
    with_unfolding_all decide
  rw [hKval] at h1
  rw [h1]
  with_unfolding_all decide

/-! ## Helper lemmas for the date/timestamp claims -/

theorem pad2_length (n : ℕ) : (pad2 n).length = 2 := by
  unfold pad2
  rw [List.length_asString]
  rfl

theorem pad4_length (n : ℕ) : (pad4 n).length = 4 := by
  unfold pad4
  rw [List.length_asString]
  rfl

theorem weekdayName_spec (dt : Date) :
    (weekdayName dt).length = 3 ∧ weekdayName dt ≠ "NaT" := by
  unfold weekdayName
  have h0 : (0:ℤ) ≤ (daysFromCivil dt + 3) % 7 :=
    Int.emod_nonneg _ (by norm_num)
  have h7 : (daysFromCivil dt + 3) % 7 < 7 :=
    Int.emod_lt_of_pos _ (by norm_num)
  have hidx : ((daysFromCivil dt + 3) % 7).toNat < 7 := by omega
  generalize ((daysFromCivil dt + 3) % 7).toNat = idx at hidx
  interval_cases idx <;> exact ⟨by decide, by decide⟩

theorem ndateSingle_ne_NaT (cfg : DateCfg) (dt : Date) : ndateSingle cfg dt ≠ "NaT" := by
  unfold ndateSingle
  split_ifs with hmy hwd
  · intro h
    have hd := congrArg String.data h
    simp only [String.data_append, String.data_singleton, String.data_drop] at hd
    have hp4 : (pad4 dt.year).data.drop 2 =
        [Nat.digitChar (dt.year / 10 % 10), Nat.digitChar (dt.year % 10)] := rfl
    rw [hp4] at hd
    have hlen := congrArg List.length hd
    simp only [List.length_append, List.length_cons, List.length_nil] at hlen
    have hmon : (monthTable.getD dt.month "").data = [] :=
      List.length_eq_zero.mp (by omega)
    rw [hmon] at hd
    simp only [List.nil_append, List.cons_append, List.singleton_append] at hd
    injection hd with h1 _
    exact absurd h1 (by decide)
  · intro h
    have hlen := congrArg String.length h
    simp only [String.length_append] at hlen
    rw [pad2_length, pad4_length] at hlen
    have h1 : (" " : String).length = 1 := rfl
    have h2 : (", " : String).length = 2 := rfl
    have h3 : (" (" : String).length = 2 := rfl
    have h4 : (")" : String).length = 1 := rfl
    have h5 : ("NaT" : String).length = 3 := rfl
    omega
  · intro h
    have hlen := congrArg String.length h
    simp only [String.length_append] at hlen
    rw [pad2_length, pad4_length] at hlen
    have h1 : (" " : String).length = 1 := rfl
    have h2 : (", " : String).length = 2 := rfl
    have h5 : ("NaT" : String).length = 3 := rfl
    omega

theorem ndaySingle_ne_NaT (rel : Bool) (today : ℤ) (dt : Date) :
    ndaySingle rel today dt ≠ "NaT" := by
  obtain ⟨hwlen, hwne⟩ := weekdayName_spec dt
  unfold ndaySingle
  split_ifs with hrel
  · unfold aliasFor
    split_ifs <;> intro h <;> try exact hwne (by rwa [String.empty_append] at h)
    all_goals
      have hlen := congrArg String.length h
      rw [String.length_append, hwlen] at hlen
      exact absurd hlen (by decide)
  · exact hwne

/-- The relative-day alias in the order the claim lists the cases (the
ranges are pairwise disjoint, so the two orders agree). -/
theorem aliasFor_eq (diff : ℤ) :
    aliasFor diff =
      (if diff = 0 then "Today, "
       else if diff = 1 then "Yesterday, "
       else if 2 ≤ diff ∧ diff ≤ 8 then "Last "
       else if diff = -1 then "Tomorrow, "
       else if -8 ≤ diff ∧ diff ≤ -2 then "Coming "
       else "") := by
  unfold aliasFor
  split_ifs <;> first | rfl | omega

/-- C6: for every valid timestamp `ntimestamp` assembles, in fixed order,
the date part, the zero-padded 12-hour hour (0 rendered as 12, 1-12
unchanged, 13-23 minus 12), the minute, the second, then always the AM/PM
marker (PM iff hour at least 12) regardless of the requested components,
then the weekday suffix; in particular the spec scenario renders
`"Jan 01, 2023 12H 30M 45S PM (Sun)"`. -/
theorem timestamp_assembly :
    (∀ (cfg : TsCfg) (t : Ts), ValidTs t →
      ntimestampSingle cfg t =
        (if cfg.show_date then
          monthTable.getD t.date.month "" ++ " " ++ pad2 t.date.day ++ ", " ++
            pad4 t.date.year ++ " " else "") ++
        (if cfg.show_hours then
          pad2 (if t.hh = 0 then 12 else if 1 ≤ t.hh ∧ t.hh ≤ 12 then t.hh else t.hh - 12)
            ++ "H" else "") ++
        (if cfg.show_minutes then " " ++ pad2 t.mi ++ "M" else "") ++
        (if cfg.show_seconds then " " ++ pad2 t.ss ++ "S" else "") ++
        (if 12 ≤ t.hh then " PM" else " AM") ++
        (if cfg.show_weekday then " (" ++ weekdayName t.date ++ ")" else "")) ∧
    ntimestamp { show_timezone := false } (.cells [some ⟨⟨2023, 1, 1⟩, 12, 30, 45⟩]) =
      ["Jan 01, 2023 12H 30M 45S PM (Sun)"] := by
  constructor
  · intro cfg t _hv
    have hh : hh12 t.hh =
        (if t.hh = 0 then 12 else if 1 ≤ t.hh ∧ t.hh ≤ 12 then t.hh else t.hh - 12) := by
      unfold hh12
      split_ifs <;> omega
    obtain ⟨swd, sdt, shh, smm, sss, stz⟩ := cfg
    simp only [ntimestampSingle, hh]
    cases sdt <;> cases shh <;> cases smm <;> cases sss <;> cases swd <;>
      simp [String.join, String.append_assoc, String.append_empty, String.empty_append,
        ge_iff_le]
  · with_unfolding_all decide

theorem timestamp_assembly_witness :
    ntimestampSingle { show_timezone := false } ⟨⟨2023, 1, 1⟩, 12, 30, 45⟩ =
      "Jan 01, 2023 12H 30M 45S PM (Sun)" := by
  have h := timestamp_assembly.1 { show_timezone := false } ⟨⟨2023, 1, 1⟩, 12, 30, 45⟩
    (by decide)
  exact h.trans (by decide)

/-- C7: on a normalized batch exactly the `NaT` cells render the `"NaT"`
sentinel (every valid cell renders a string different from it), the output
always has the input's length, and a batch that failed dtype normalization
entirely renders `"NaT"` at every one of its positions. -/
theorem nat_sentinel_positions :
    (∀ (cfg : DateCfg) (xs : List (Option Date)),
        (ndate cfg (.cells xs)).length = xs.length ∧
        ∀ (i : ℕ) (hi : i < xs.length),
          ((ndate cfg (.cells xs)).getD i "" = "NaT" ↔ xs.get ⟨i, hi⟩ = none)) ∧
    (∀ (rel : Bool) (today : ℤ) (xs : List (Option Date)),
        (nday rel today (.cells xs)).length = xs.length ∧
        ∀ (i : ℕ) (hi : i < xs.length),
          ((nday rel today (.cells xs)).getD i "" = "NaT" ↔ xs.get ⟨i, hi⟩ = none)) ∧
    (∀ (cfg : DateCfg) (n : ℕ), ndate cfg (.failed n) = List.replicate n "NaT") ∧
    (∀ (rel : Bool) (today : ℤ) (n : ℕ),
        nday rel today (.failed n) = List.replicate n "NaT") := by
  have hdate : ∀ (cfg : DateCfg) (xs : List (Option Date)),
      ndate cfg (.cells xs) = xs.map fun c => match c with
        | none => "NaT"
        | some dt => ndateSingle cfg dt := by
    intro cfg xs
    simp only [ndate]
    split_ifs with h
    · rw [List.length_eq_zero.mp h]
      rfl
    · rfl
  have hday : ∀ (rel : Bool) (today : ℤ) (xs : List (Option Date)),
      nday rel today (.cells xs) = xs.map fun c => match c with
        | none => "NaT"
        | some dt => ndaySingle rel today dt := by
    intro rel today xs
    simp only [nday]
    split_ifs with h
    · rw [List.length_eq_zero.mp h]
      rfl
    · rfl
  refine ⟨fun cfg xs => ?_, fun rel today xs => ?_, fun cfg n => rfl, fun rel today n => rfl⟩
  · rw [hdate]
    refine ⟨by simp, fun i hi => ?_⟩
    rw [List.getD_eq_getElem?_getD, List.getElem?_eq_getElem (by simpa using hi)]
    simp only [List.getElem_map, Option.getD_some]
    rcases hc : xs.get ⟨i, hi⟩ with _ | dt
    · rw [show xs[i] = xs.get ⟨i, hi⟩ from rfl, hc]
      simp
    · rw [show xs[i] = xs.get ⟨i, hi⟩ from rfl, hc]
      simpa using ndateSingle_ne_NaT cfg dt
  · rw [hday]
    refine ⟨by simp, fun i hi => ?_⟩
    rw [List.getD_eq_getElem?_getD, List.getElem?_eq_getElem (by simpa using hi)]
    simp only [List.getElem_map, Option.getD_some]
    rcases hc : xs.get ⟨i, hi⟩ with _ | dt
    · rw [show xs[i] = xs.get ⟨i, hi⟩ from rfl, hc]
      simp
    · rw [show xs[i] = xs.get ⟨i, hi⟩ from rfl, hc]
      simpa using ndaySingle_ne_NaT rel today dt

theorem nat_sentinel_positions_witness :
    ndate {} (.cells [none, some ⟨2024, 1, 1⟩]) = ["NaT", "Jan 01, 2024 (Mon)"] ∧
    ((ndate {} (.cells [none, some ⟨2024, 1, 1⟩])).getD 0 "" = "NaT" ↔
      ([none, some (⟨2024, 1, 1⟩ : Date)].get ⟨0, by decide⟩ = none)) ∧
    ¬ (ndate {} (.cells [none, some ⟨2024, 1, 1⟩])).getD 1 "" = "NaT" := by
  refine ⟨by decide, (nat_sentinel_positions.1 {} [none, some ⟨2024, 1, 1⟩]).2 0 (by decide), ?_⟩
  have h := ((nat_sentinel_positions.1 {} [none, some ⟨2024, 1, 1⟩]).2 1 (by decide))
  intro hh
  exact absurd (h.mp hh) (by decide)

/-- C9: the weekday-name formatter returns
`table[(epoch_day + 3) mod 7]` over the table Mon..Sun (1970-01-01 is epoch
day 0, a Thursday), and with `show_relative_day` it prepends the prefix
determined by `diff = today - date` in whole days (0 Today, 1 Yesterday,
2..8 Last, -1 Tomorrow, -8..-2 Coming, otherwise nothing), the single
`today` parameter being shared by every element of the batch. -/
theorem weekday_relative :
    (daysFromCivil ⟨1970, 1, 1⟩ = 0 ∧ weekTable.getD (((0:ℤ) + 3) % 7).toNat "" = "Thu") ∧
    (∀ (today : ℤ) (dt : Date),
        ndaySingle false today dt = weekTable.getD ((daysFromCivil dt + 3) % 7).toNat "") ∧
    (∀ (today : ℤ) (xs : List (Option Date)) (i : ℕ) (hi : i < xs.length) (dt : Date),
        xs.get ⟨i, hi⟩ = some dt →
        (nday true today (.cells xs)).getD i "" =
          (if today - daysFromCivil dt = 0 then "Today, "
           else if today - daysFromCivil dt = 1 then "Yesterday, "
           else if 2 ≤ today - daysFromCivil dt ∧ today - daysFromCivil dt ≤ 8 then "Last "
           else if today - daysFromCivil dt = -1 then "Tomorrow, "
           else if -8 ≤ today - daysFromCivil dt ∧ today - daysFromCivil dt ≤ -2 then
             "Coming "
           else "") ++
          weekTable.getD ((daysFromCivil dt + 3) % 7).toNat "") := by
  refine ⟨⟨by decide, by decide⟩, fun today dt => rfl, fun today xs i hi dt hc => ?_⟩
  have hday : nday true today (.cells xs) = xs.map fun c => match c with
      | none => "NaT"
      | some dt => ndaySingle true today dt := by
    simp only [nday]
    split_ifs with h
    · rw [List.length_eq_zero.mp h]
      rfl
    · rfl
  rw [hday, List.getD_eq_getElem?_getD, List.getElem?_eq_getElem (by simpa using hi)]
  simp only [List.getElem_map, Option.getD_some]
  rw [show xs[i] = xs.get ⟨i, hi⟩ from rfl, hc]
  show ndaySingle true today dt = _
  unfold ndaySingle weekdayName
  rw [if_pos rfl, aliasFor_eq]

theorem weekday_relative_witness :
    (nday true (daysFromCivil ⟨2023, 1, 10⟩) (.cells [some ⟨2023, 1, 9⟩])).getD 0 ""
      = "Yesterday, Mon" := by
  have h := weekday_relative.2.2 (daysFromCivil ⟨2023, 1, 10⟩) [some ⟨2023, 1, 9⟩] 0
    (by decide) ⟨2023, 1, 9⟩ (by decide)
  exact h.trans (by decide)

/-- C10: each formatter returns an empty batch, with no error and no element
work, when applied to an empty input batch. -/
theorem empty_batches :
    (∀ cfg : PctCfg, npercent cfg [] = []) ∧
    (∀ (rel : Bool) (today : ℤ), nday rel today (.cells []) = []) ∧
    (∀ cfg : DateCfg, ndate cfg (.cells []) = []) ∧
    (∀ cfg : TsCfg, ntimestamp cfg (.cells []) = []) := by
  refine ⟨fun cfg => ?_, fun rel today => rfl, fun cfg => rfl, fun cfg => rfl⟩
  unfold npercent
  rcases cfg with ⟨r, d, ps, gf, bps⟩
  cases r <;> rfl

end PyNeatR